import Mathlib

/-!
Verification of the segment-translation-to-subtitle-synthesis pipeline of the
whisper-translator repository, as a shallow embedding in Lean 4.

The embedding follows the Python source:
* `format_timestamp`, `clean_text_for_subtitle`, `translate_to_traditional_chinese`,
  `generate_srt_content` and `process_audio_to_srt` from `src/main.py`
  (near-verbatim copies also live in `src/app.py` and `src/streamlit_app.py`;
  where the copies differ, both variants are embedded and compared).
* Real-valued seconds are modelled by `ℚ` (exact arithmetic, the idealised
  semantics of the Python float expressions); Python `divmod` on non-negative
  divisors is floored division, Python `int(x)` on the non-negative values that
  occur here is `Int.floor`.
* Python strings are modelled by `String` / `List Char`; Python truthiness of a
  string is emptiness.
-/

/-! ### Python numeric string formatting -/

/-- Left-pad a digit string with `'0'` up to width `w`
(the padding part of Python `format(n, '0Nd')`). -/
def padZeros (w : Nat) (s : String) : String :=
  String.mk (List.replicate (w - s.length) '0') ++ s

/-- Python `f"{n:0wd}"`: zero-padded decimal rendering of an integer; the sign
counts towards the width, and values wider than `w` render in full. -/
def pyPad (w : Nat) (n : ℤ) : String :=
  if n < 0 then "-" ++ padZeros (w - 1) (toString n.natAbs)
  else padZeros w (toString n.natAbs)

/-! ### Timestamp formatter (src/main.py, lines 48-54) -/

/-- `hours, remainder = divmod(td.total_seconds(), 3600)` — quotient. -/
def tsHours (s : ℚ) : ℤ := ⌊s / 3600⌋

/-- `hours, remainder = divmod(td.total_seconds(), 3600)` — remainder. -/
def tsRemainder (s : ℚ) : ℚ := s - 3600 * (tsHours s : ℚ)

/-- `minutes, seconds = divmod(remainder, 60)` — quotient. -/
def tsMinutes (s : ℚ) : ℤ := ⌊tsRemainder s / 60⌋

/-- `minutes, seconds = divmod(remainder, 60)` — remainder. -/
def tsSeconds (s : ℚ) : ℚ := tsRemainder s - 60 * (tsMinutes s : ℚ)

/-- `milliseconds = int((seconds % 1) * 1000)`; the fractional part is
non-negative, so Python `int` truncation is `Int.floor`. -/
def tsMillis (s : ℚ) : ℤ := ⌊(tsSeconds s - (⌊tsSeconds s⌋ : ℚ)) * 1000⌋

/-- `format_timestamp` from `src/main.py` lines 48-54:
`f"{int(hours):02d}:{int(minutes):02d}:{int(seconds):02d},{milliseconds:03d}"`. -/
def format_timestamp (s : ℚ) : String :=
  pyPad 2 (tsHours s) ++ ":" ++ pyPad 2 (tsMinutes s) ++ ":" ++
    pyPad 2 ⌊tsSeconds s⌋ ++ "," ++ pyPad 3 (tsMillis s)

/-! ### Floor arithmetic helpers -/

/-- Floored division of a rational by a positive integer commutes with `Int.floor`. -/
theorem floor_div_intCast (a : ℚ) (n : ℤ) (hn : 0 < n) : ⌊a / (n : ℚ)⌋ = ⌊a⌋ / n := by
  have hn' : (0 : ℚ) < (n : ℚ) := by exact_mod_cast hn
  rw [Int.floor_eq_iff]
  constructor
  · rw [le_div_iff₀ hn']
    have h1 : (⌊a⌋ / n) * n ≤ ⌊a⌋ := by
      have := Int.ediv_add_emod ⌊a⌋ n
      have := Int.emod_nonneg ⌊a⌋ (ne_of_gt hn)
      nlinarith
    calc ((⌊a⌋ / n : ℤ) : ℚ) * (n : ℚ) = ((⌊a⌋ / n * n : ℤ) : ℚ) := by push_cast; ring
      _ ≤ (⌊a⌋ : ℚ) := by exact_mod_cast h1
      _ ≤ a := Int.floor_le a
  · rw [div_lt_iff₀ hn']
    have h2 : ⌊a⌋ + 1 ≤ (⌊a⌋ / n + 1) * n :=
      Int.add_one_le_iff.mpr (Int.lt_ediv_add_one_mul_self ⌊a⌋ hn)
    calc a < (⌊a⌋ : ℚ) + 1 := Int.lt_floor_add_one a
      _ ≤ (((⌊a⌋ / n + 1) * n : ℤ) : ℚ) := by exact_mod_cast h2
      _ = ((⌊a⌋ / n : ℤ) : ℚ) * (n : ℚ) + (n : ℚ) := by push_cast; ring
      _ = (((⌊a⌋ / n : ℤ) : ℚ) + 1) * (n : ℚ) := by ring

/-- The hours field equals the total truncated-millisecond count divided by 3600000. -/
theorem tsHours_formula (s : ℚ) : tsHours s = ⌊s * 1000⌋ / 3600000 := by
  have h1 : s / 3600 = s * 1000 / ((3600000 : ℤ) : ℚ) := by push_cast; ring
  rw [tsHours, h1, floor_div_intCast _ _ (by norm_num)]

/-- The minutes field from the truncated-millisecond count. -/
theorem tsMinutes_formula (s : ℚ) : tsMinutes s = ⌊s * 1000⌋ / 60000 % 60 := by
  have h1 : tsRemainder s / 60 =
      (s * 1000 - ((3600000 * (⌊s * 1000⌋ / 3600000) : ℤ) : ℚ)) / ((60000 : ℤ) : ℚ) := by
    rw [tsRemainder, tsHours_formula]; push_cast; ring
  rw [tsMinutes, h1, floor_div_intCast _ _ (by norm_num), Int.floor_sub_int]
  omega

/-- The floor of a rational from its truncated-millisecond count. -/
theorem floor_eq_floorMs_div (s : ℚ) : ⌊s⌋ = ⌊s * 1000⌋ / 1000 := by
  have h2 : s = s * 1000 / ((1000 : ℤ) : ℚ) := by push_cast; ring
  conv_lhs => rw [h2]
  exact floor_div_intCast _ _ (by norm_num)

/-- The integer-seconds field from the truncated-millisecond count. -/
theorem tsSecondsFloor_formula (s : ℚ) : ⌊tsSeconds s⌋ = ⌊s * 1000⌋ / 1000 % 60 := by
  have h1 : tsSeconds s =
      s - ((3600 * (⌊s * 1000⌋ / 3600000) + 60 * (⌊s * 1000⌋ / 60000 % 60) : ℤ) : ℚ) := by
    rw [tsSeconds, tsMinutes_formula, tsRemainder, tsHours_formula]; push_cast; ring
  rw [h1, Int.floor_sub_int, floor_eq_floorMs_div]
  omega

/-- The milliseconds field from the truncated-millisecond count. -/
theorem tsMillis_formula (s : ℚ) : tsMillis s = ⌊s * 1000⌋ % 1000 := by
  have h1 : (tsSeconds s - (⌊tsSeconds s⌋ : ℚ)) * 1000 =
      s * 1000 - ((3600000 * (⌊s * 1000⌋ / 3600000) + 60000 * (⌊s * 1000⌋ / 60000 % 60)
        + 1000 * (⌊s * 1000⌋ / 1000 % 60) : ℤ) : ℚ) := by
    rw [tsSecondsFloor_formula, tsSeconds, tsMinutes_formula, tsRemainder, tsHours_formula]
    push_cast; ring
  rw [tsMillis, h1, Int.floor_sub_int]
  omega

/-- C3: for every non-negative rational number of seconds `s`, `format_timestamp s`
renders `"HH:MM:SS,mmm"` where, writing `N = ⌊s * 1000⌋` for the truncated total
millisecond count, the fields are the successive-division values
`N / 3600000`, `N / 60000 % 60`, `N / 1000 % 60` and `N % 1000` (milliseconds
truncated, not rounded), each zero-padded (2 digits for H/M/S, 3 for ms) with
wider hour values rendered in full; in particular
`format_timestamp 3661.2345 = "01:01:01,234"` and 100 hours renders as `"100"`. -/
theorem format_timestamp_correct :
    (∀ s : ℚ, 0 ≤ s →
      format_timestamp s =
        pyPad 2 (⌊s * 1000⌋ / 3600000) ++ ":" ++ pyPad 2 (⌊s * 1000⌋ / 60000 % 60) ++ ":" ++
          pyPad 2 (⌊s * 1000⌋ / 1000 % 60) ++ "," ++ pyPad 3 (⌊s * 1000⌋ % 1000)) ∧
    format_timestamp 3661.2345 = "01:01:01,234" ∧
    format_timestamp 360000 = "100:00:00,000" := by
  have key : ∀ s : ℚ,
      format_timestamp s =
        pyPad 2 (⌊s * 1000⌋ / 3600000) ++ ":" ++ pyPad 2 (⌊s * 1000⌋ / 60000 % 60) ++ ":" ++
          pyPad 2 (⌊s * 1000⌋ / 1000 % 60) ++ "," ++ pyPad 3 (⌊s * 1000⌋ % 1000) := by
    intro s
    rw [format_timestamp, tsHours_formula, tsMinutes_formula, tsSecondsFloor_formula,
      tsMillis_formula]
  refine ⟨fun s _ => key s, ?_, ?_⟩
  · have hN : ⌊(3661.2345 : ℚ) * 1000⌋ = 3661234 := by norm_num
    rw [key, hN]
    rfl
  · have hN : ⌊(360000 : ℚ) * 1000⌋ = 360000000 := by norm_num
    rw [key, hN]
    rfl

/-- C3 witness: the general formula applied at the concrete input `s = 0`. -/
theorem format_timestamp_correct_witness :
    format_timestamp 0 =
      pyPad 2 (⌊(0 : ℚ) * 1000⌋ / 3600000) ++ ":" ++ pyPad 2 (⌊(0 : ℚ) * 1000⌋ / 60000 % 60)
        ++ ":" ++ pyPad 2 (⌊(0 : ℚ) * 1000⌋ / 1000 % 60) ++ "," ++ pyPad 3 (⌊(0 : ℚ) * 1000⌋ % 1000) :=
  format_timestamp_correct.1 0 (le_refl 0)

/-- C8 counterexample: at the negative input `-5` the formatter raises nothing and
silently returns the formatted string `"-1:59:55,000"` (floored division carries
the sign into the hours field). -/
theorem format_timestamp_negative_counterexample :
    format_timestamp (-5) = "-1:59:55,000" := by
  have hN : ⌊(-5 : ℚ) * 1000⌋ = -5000 := by norm_num
  have key := tsHours_formula (-5)
  have k2 := tsMinutes_formula (-5)
  have k3 := tsSecondsFloor_formula (-5)
  have k4 := tsMillis_formula (-5)
  rw [hN] at key k2 k3 k4
  rw [format_timestamp, key, k2, k3, k4]
  rfl

/-- C8 amended: for negative seconds the formatter does not fail; it returns a
formatted string whose first character is the minus sign of the hours field. -/
theorem format_timestamp_negative_renders (s : ℚ) (hs : s < 0) :
    ∃ rest, (format_timestamp s).data = '-' :: rest := by
  have hh : tsHours s < 0 := by
    rw [tsHours, Int.floor_lt]
    push_cast
    exact div_neg_of_neg_of_pos hs (by norm_num)
  refine ⟨(padZeros 1 (toString (tsHours s).natAbs) ++ ":" ++ pyPad 2 (tsMinutes s) ++ ":" ++
    pyPad 2 ⌊tsSeconds s⌋ ++ "," ++ pyPad 3 (tsMillis s)).data, ?_⟩
  rw [format_timestamp, pyPad, if_pos hh]
  simp [String.data_append]

/-- C8 amended witness: the amended statement applied at the concrete input `-1`. -/
theorem format_timestamp_negative_renders_witness :
    ∃ rest, (format_timestamp (-1)).data = '-' :: rest :=
  format_timestamp_negative_renders (-1) (neg_lt_zero.mpr one_pos)

/-! ### Subtitle line wrapper (src/main.py, lines 56-73) -/

/-- The whitespace class of Python `str.strip` / `re` `\s` (ASCII part). -/
def isPySpace (c : Char) : Bool :=
  c = ' ' || c = '\t' || c = '\n' || c = '\r' || c = '\x0b' || c = '\x0c'

/-- Python `text.strip()`: drop leading and trailing whitespace. -/
def pyStrip (l : List Char) : List Char :=
  ((l.dropWhile isPySpace).reverse.dropWhile isPySpace).reverse

/-- Replace every maximal whitespace run by a single space (the effect of
`re.sub` with a one-or-more-whitespace pattern and a space replacement);
the flag records whether the previous character was whitespace. -/
def collapseAux : Bool → List Char → List Char
  | _, [] => []
  | prev, c :: rest =>
    if isPySpace c then
      if prev then collapseAux true rest else ' ' :: collapseAux true rest
    else
      c :: collapseAux false rest

/-- Line 58 of `src/main.py`: strip, then collapse whitespace runs to spaces. -/
def collapseWs (t : String) : String :=
  String.mk (collapseAux false (pyStrip t.data))

/-- Python `str.split(sep)` for a single-character separator; `acc` holds the
current chunk reversed. -/
def splitChAux (c : Char) : List Char → List Char → List (List Char)
  | [], acc => [acc.reverse]
  | x :: xs, acc =>
    if x = c then acc.reverse :: splitChAux c xs [] else splitChAux c xs (x :: acc)

/-- Python `text.split(c)` on character lists. -/
def splitCh (c : Char) (l : List Char) : List (List Char) :=
  splitChAux c l []

/-- The greedy word-packing loop of `clean_text_for_subtitle` (lines 62-71):
`cur` is `current_line`; a word joins the current line when
`len(current_line + " " + word) <= 40`, otherwise the current line is flushed
(if non-empty) and the word starts a new line. -/
def packWords : List (List Char) → List Char → List (List Char)
  | [], cur => if cur.isEmpty then [] else [cur]
  | w :: ws, cur =>
    if cur.length + 1 + w.length ≤ 40 then
      packWords ws (if cur.isEmpty then w else cur ++ ' ' :: w)
    else if cur.isEmpty then
      packWords ws w
    else
      cur :: packWords ws w

/-- Python `"\n".join(lines)` on character lists, for a general separator. -/
def joinCh (c : Char) : List (List Char) → List Char
  | [] => []
  | [l] => l
  | l :: ls => l ++ c :: joinCh c ls

/-- `clean_text_for_subtitle` from `src/main.py` lines 56-73. -/
def clean_text_for_subtitle (t : String) : String :=
  let s := collapseWs t
  if s.length > 40 then String.mk (joinCh '\n' (packWords (splitCh ' ' s.data) []))
  else s

/-! ### Wrapper lemmas -/

/-- Every character emitted by the collapser is a space or a non-whitespace
character of the input. -/
theorem collapseAux_mem (b : Bool) (l : List Char) :
    ∀ a ∈ collapseAux b l, a = ' ' ∨ isPySpace a = false := by
  induction l generalizing b with
  | nil => intro a ha; simp [collapseAux] at ha
  | cons c rest ih =>
    intro a ha
    by_cases hc : isPySpace c
    · rw [collapseAux, if_pos hc] at ha
      by_cases hb : b
      · subst hb; simp only [if_pos] at ha; exact ih true a ha
      · simp only [hb, if_false, Bool.false_eq_true] at ha
        rcases List.mem_cons.mp ha with h | h
        · exact Or.inl h
        · exact ih true a h
    · rw [collapseAux, if_neg hc] at ha
      rcases List.mem_cons.mp ha with h | h
      · subst h; exact Or.inr (by simpa using hc)
      · exact ih false a h

/-- The collapsed text contains no newline character. -/
theorem collapseWs_no_newline (t : String) : '\n' ∉ (collapseWs t).data := by
  intro h
  rcases collapseAux_mem false (pyStrip t.data) '\n' h with h1 | h1
  · exact absurd h1 (by decide)
  · exact absurd h1 (by decide)

/-- Characters of a split chunk come from the input or the accumulator. -/
theorem splitChAux_mem (c : Char) (xs : List Char) :
    ∀ acc l, l ∈ splitChAux c xs acc → ∀ a ∈ l, a ∈ xs ∨ a ∈ acc := by
  induction xs with
  | nil =>
    intro acc l hl a ha
    simp only [splitChAux, List.mem_singleton] at hl
    subst hl
    exact Or.inr (List.mem_reverse.mp ha)
  | cons x xs ih =>
    intro acc l hl a ha
    by_cases hx : x = c
    · rw [splitChAux, if_pos hx] at hl
      rcases List.mem_cons.mp hl with h | h
      · subst h; exact Or.inr (List.mem_reverse.mp ha)
      · rcases ih [] l h a ha with h2 | h2
        · exact Or.inl (List.mem_cons_of_mem x h2)
        · simp at h2
    · rw [splitChAux, if_neg hx] at hl
      rcases ih (x :: acc) l hl a ha with h2 | h2
      · exact Or.inl (List.mem_cons_of_mem x h2)
      · rcases List.mem_cons.mp h2 with h3 | h3
        · exact Or.inl (h3 ▸ List.mem_cons_self x xs)
        · exact Or.inr h3

/-- Split chunks never contain the separator. -/
theorem splitChAux_sep_not_mem (c : Char) (xs : List Char) :
    ∀ acc, c ∉ acc → ∀ l ∈ splitChAux c xs acc, c ∉ l := by
  induction xs with
  | nil =>
    intro acc hacc l hl
    simp only [splitChAux, List.mem_singleton] at hl
    subst hl
    simpa using hacc
  | cons x xs ih =>
    intro acc hacc l hl
    by_cases hx : x = c
    · rw [splitChAux, if_pos hx] at hl
      rcases List.mem_cons.mp hl with h | h
      · subst h; simpa using hacc
      · exact ih [] (by simp) l h
    · rw [splitChAux, if_neg hx] at hl
      refine ih (x :: acc) ?_ l hl
      intro hmem
      rcases List.mem_cons.mp hmem with h | h
      · exact hx h.symm
      · exact hacc h

/-- A well-formed output line: no newline inside, and within the display width
unless it is a single word (contains no space). -/
def GoodLine (l : List Char) : Prop :=
  '\n' ∉ l ∧ (l.length ≤ 40 ∨ ' ' ∉ l)

/-- Every line produced by the greedy packer is well formed, provided the words
contain neither spaces nor newlines. -/
theorem packWords_good (ws : List (List Char)) :
    ∀ cur, (∀ w ∈ ws, ' ' ∉ w ∧ '\n' ∉ w) → '\n' ∉ cur → (cur.length ≤ 40 ∨ ' ' ∉ cur) →
      ∀ l ∈ packWords ws cur, GoodLine l := by
  induction ws with
  | nil =>
    intro cur _ hnl hlen l hl
    rw [packWords] at hl
    by_cases hc : cur.isEmpty
    · simp [hc] at hl
    · simp only [hc, Bool.false_eq_true, if_false, List.mem_singleton] at hl
      subst hl
      exact ⟨hnl, hlen⟩
  | cons w ws ih =>
    intro cur hws hnl hlen l hl
    have hw := hws w (List.mem_cons_self w ws)
    have hws' : ∀ v ∈ ws, ' ' ∉ v ∧ '\n' ∉ v := fun v hv => hws v (List.mem_cons_of_mem w hv)
    rw [packWords] at hl
    by_cases hfit : cur.length + 1 + w.length ≤ 40
    · rw [if_pos hfit] at hl
      by_cases hc : cur.isEmpty
      · simp only [hc, if_true] at hl
        exact ih w hws' hw.2 (Or.inr hw.1) l hl
      · simp only [hc, Bool.false_eq_true, if_false] at hl
        refine ih (cur ++ ' ' :: w) hws' ?_ (Or.inl ?_) l hl
        · intro hmem
          rcases List.mem_append.mp hmem with h | h
          · exact hnl h
          · rcases List.mem_cons.mp h with h2 | h2
            · exact absurd h2 (by decide)
            · exact hw.2 h2
        · simp only [List.length_append, List.length_cons]
          omega
    · rw [if_neg hfit] at hl
      by_cases hc : cur.isEmpty
      · rw [if_pos hc] at hl
        exact ih w hws' hw.2 (Or.inr hw.1) l hl
      · rw [if_neg hc] at hl
        rcases List.mem_cons.mp hl with h | h
        · subst h; exact ⟨hnl, hlen⟩
        · exact ih w hws' hw.2 (Or.inr hw.1) l h

/-- Splitting on a character absent from the input yields a single chunk. -/
theorem splitChAux_of_not_mem (c : Char) (xs : List Char) :
    ∀ acc, c ∉ xs → splitChAux c xs acc = [acc.reverse ++ xs] := by
  induction xs with
  | nil => intro acc _; simp [splitChAux]
  | cons x xs ih =>
    intro acc hx
    have hxc : ¬ x = c := fun h => hx (h ▸ List.mem_cons_self x xs)
    rw [splitChAux, if_neg hxc, ih (x :: acc) (fun h => hx (List.mem_cons_of_mem x h))]
    simp

/-- Splitting consumes a separator-free chunk followed by a separator. -/
theorem splitChAux_chunk (c : Char) (l : List Char) :
    ∀ acc rest, c ∉ l →
      splitChAux c (l ++ c :: rest) acc = (acc.reverse ++ l) :: splitChAux c rest [] := by
  induction l with
  | nil => intro acc rest _; simp [splitChAux]
  | cons x l ih =>
    intro acc rest hx
    have hxc : ¬ x = c := fun h => hx (h ▸ List.mem_cons_self x l)
    rw [List.cons_append, splitChAux, if_neg hxc,
      ih (x :: acc) rest (fun h => hx (List.mem_cons_of_mem x h))]
    simp

/-- Splitting on the separator recovers the joined chunks. -/
theorem splitCh_joinCh (c : Char) (ls : List (List Char)) (hne : ls ≠ [])
    (h : ∀ l ∈ ls, c ∉ l) : splitCh c (joinCh c ls) = ls := by
  induction ls with
  | nil => exact absurd rfl hne
  | cons l ls ih =>
    cases ls with
    | nil =>
      rw [joinCh, splitCh, splitChAux_of_not_mem c l [] (h l (List.mem_cons_self l []))]
      simp
    | cons l2 ls2 =>
      rw [joinCh, splitCh,
        splitChAux_chunk c l [] (joinCh c (l2 :: ls2)) (h l (List.mem_cons_self l _))]
      have := ih (List.cons_ne_nil l2 ls2) (fun v hv => h v (List.mem_cons_of_mem l hv))
      rw [splitCh] at this
      simp [this]
      exact fun hx => List.noConfusion hx

/-- C6: every line of the wrapped output (split on the newline character) has
length at most 40 unless it is a single word (no space) longer than 40
characters; and if the whitespace-normalized text has length at most 40, the
wrapper returns it unchanged as a single line. -/
theorem clean_text_line_bound (x : String) :
    (∀ l ∈ splitCh '\n' (clean_text_for_subtitle x).data, l.length ≤ 40 ∨ ' ' ∉ l) ∧
    ((collapseWs x).length ≤ 40 → clean_text_for_subtitle x = collapseWs x) := by
  constructor
  · intro l hl
    by_cases hlen : (collapseWs x).length > 40
    · rw [clean_text_for_subtitle, if_pos hlen] at hl
      have hwords : ∀ w ∈ splitCh ' ' (collapseWs x).data, ' ' ∉ w ∧ '\n' ∉ w := by
        intro w hw
        refine ⟨splitChAux_sep_not_mem ' ' (collapseWs x).data [] (by simp) w hw, ?_⟩
        intro hn
        rcases splitChAux_mem ' ' (collapseWs x).data [] w hw '\n' hn with h | h
        · exact collapseWs_no_newline x h
        · simp at h
      have hgood : ∀ m ∈ packWords (splitCh ' ' (collapseWs x).data) [], GoodLine m :=
        packWords_good _ [] hwords (by simp) (Or.inl (by simp))
      cases hLs : packWords (splitCh ' ' (collapseWs x).data) [] with
      | nil =>
        rw [hLs] at hl
        simp only [joinCh] at hl
        simp only [splitCh, splitChAux, List.mem_singleton] at hl
        subst hl
        exact Or.inl (by simp)
      | cons m ms =>
        rw [hLs] at hl
        rw [splitCh_joinCh '\n' (m :: ms) (by simp)
          (fun v hv => (hgood v (hLs ▸ hv)).1)] at hl
        exact (hgood l (hLs ▸ hl)).2
    · rw [clean_text_for_subtitle, if_neg hlen] at hl
      rw [splitCh, splitChAux_of_not_mem '\n' _ [] (collapseWs_no_newline x)] at hl
      simp only [List.reverse_nil, List.nil_append, List.mem_singleton] at hl
      subst hl
      exact Or.inl (by simpa using Nat.not_lt.mp hlen)
  · intro h
    rw [clean_text_for_subtitle, if_neg (by omega)]

/-- C6 witness: the wrapper leaves the short input `"hello world"` unchanged. -/
theorem clean_text_line_bound_witness :
    (collapseWs "hello world").length ≤ 40 ∧
    clean_text_for_subtitle "hello world" = collapseWs "hello world" :=
  ⟨by decide, (clean_text_line_bound "hello world").2 (by decide)⟩

/-! ### Segment translator (src/main.py lines 99-118; src/app.py lines 93-107) -/

/-- A dynamically-typed value returned by the translation collaborator:
Python `None`, a string, or a non-string value carrying its `str()` rendering. -/
inductive PyVal where
  | none
  | str (s : String)
  | other (rendered : String)
deriving DecidableEq

/-- `translate_to_traditional_chinese` from `src/main.py` lines 99-118 on the
success path (the collaborator returned `res` without raising): empty input
returns the placeholder sentinel; a `None` result is normalized to the empty
string and a non-string result to its string rendering. -/
def translate_main (res : PyVal) (text : String) : PyVal × String :=
  if text = "" then (PyVal.str "沒有文字需要翻譯", "")
  else
    match res with
    | PyVal.none => (PyVal.str "", "")
    | PyVal.str s => (PyVal.str s, "")
    | PyVal.other r => (PyVal.str r, "")

/-- `translate_to_traditional_chinese` from `src/app.py` lines 93-107, success
path: the collaborator result is returned as-is, with no normalization step. -/
def translate_app (res : PyVal) (text : String) : PyVal × String :=
  if text = "" then (PyVal.str "沒有文字需要翻譯", "") else (res, "")

/-- C2: the `src/main.py` translator always returns a string on success, but the
`src/app.py` copy omits the normalization: on input `"hello"` with a `None`
collaborator result it returns the non-string value `None` to its caller. -/
theorem translate_app_returns_non_string :
    translate_app PyVal.none "hello" = (PyVal.none, "") ∧
    ∀ res text, ∃ s, (translate_main res text).1 = PyVal.str s := by
  refine ⟨rfl, fun res text => ?_⟩
  by_cases h : text = ""
  · exact ⟨"沒有文字需要翻譯", by simp [translate_main, h]⟩
  · cases res with
    | none => exact ⟨"", by simp [translate_main, h]⟩
    | str s => exact ⟨s, by simp [translate_main, h]⟩
    | other r => exact ⟨r, by simp [translate_main, h]⟩

/-! ### Lazy model loading (src/main.py lines 41-46; src/app.py lines 22-27;
src/streamlit_app.py lines 31-35) -/

/-- `load_whisper_model`: the memo is a single slot (`self.whisper_model`), not
keyed by the requested tier; a model instance is identified by the tier it was
constructed with. Returns the handed-out model and the updated slot. -/
def load_whisper_model (state : Option String) (model_size : String) :
    String × Option String :=
  match state with
  | none => (model_size, some model_size)
  | some m => (m, some m)

/-- A sequence of model-tier requests against one process's slot: the list of
model instances handed out, and the final slot. -/
def runLoads : List String → Option String → List String × Option String
  | [], st => ([], st)
  | sz :: rest, st =>
    let p := load_whisper_model st sz
    let q := runLoads rest p.2
    (p.1 :: q.1, q.2)

/-- C7 counterexample: after a first call loading tier `"base"`, a second call
requesting tier `"tiny"` returns the memoized `"base"`-tier instance, not a
model of the requested tier. -/
theorem model_memo_counterexample :
    runLoads ["base", "tiny"] none = (["base", "base"], some "base") ∧
    "base" ≠ "tiny" :=
  ⟨rfl, by decide⟩

/-- The per-tier model cache maintained by `st.cache_resource` around
`load_whisper_model` in `src/streamlit_app.py` lines 31-35: the decorator
excludes the underscore-prefixed `_self` parameter from the cache key, so the
cache is keyed by `model_size` alone. A model instance is identified by the
tier it was constructed with together with a construction sequence number;
`next` is the next fresh number. -/
structure StCache where
  entries : List (String × Nat)
  next : Nat

/-- The empty cache a process starts with. -/
def stInit : StCache := ⟨[], 0⟩

/-- One `load_whisper_model` call in the Streamlit front-end: a cache hit for
the requested tier returns the memoized instance; a miss constructs a fresh
model of the requested tier (`whisper.load_model(model_size)`) and memoizes it
under that tier. -/
def st_load_whisper_model (c : StCache) (model_size : String) :
    (String × Nat) × StCache :=
  match c.entries.lookup model_size with
  | some id => ((model_size, id), c)
  | none => ((model_size, c.next), ⟨(model_size, c.next) :: c.entries, c.next + 1⟩)

/-- A sequence of model-tier requests against the Streamlit per-tier cache:
the instances handed out, in call order, and the final cache. -/
def stRunLoads : List String → StCache → List (String × Nat) × StCache
  | [], c => ([], c)
  | sz :: rest, c =>
    let p := st_load_whisper_model c sz
    let q := stRunLoads rest p.2
    (p.1 :: q.1, q.2)

/-- A Streamlit load always hands out a model of the requested tier. -/
theorem st_load_fst (c : StCache) (sz : String) :
    (st_load_whisper_model c sz).1.1 = sz := by
  cases hl : c.entries.lookup sz <;> simp [st_load_whisper_model, hl]

/-- A Streamlit load never overwrites an existing cache entry. -/
theorem st_load_preserves_lookup (c : StCache) (sz T : String) (id : Nat)
    (h : c.entries.lookup T = some id) :
    (st_load_whisper_model c sz).2.entries.lookup T = some id := by
  cases hl : c.entries.lookup sz with
  | some v => simpa [st_load_whisper_model, hl] using h
  | none =>
    have hTsz : T ≠ sz := by
      intro he
      rw [he, hl] at h
      exact Option.noConfusion h
    simp [st_load_whisper_model, hl, List.lookup, beq_eq_false_iff_ne.mpr hTsz, h]

/-- A run of Streamlit loads never overwrites an existing cache entry. -/
theorem stRunLoads_preserves_lookup (reqs : List String) :
    ∀ (c : StCache) (T : String) (id : Nat), c.entries.lookup T = some id →
      (stRunLoads reqs c).2.entries.lookup T = some id := by
  induction reqs with
  | nil => intro c T id h; exact h
  | cons sz rest ih =>
    intro c T id h
    exact ih _ T id (st_load_preserves_lookup c sz T id h)

/-- The instance a Streamlit load hands out is the one its tier maps to in the
updated cache. -/
theorem st_load_result_lookup (c : StCache) (sz : String) :
    (st_load_whisper_model c sz).2.entries.lookup (st_load_whisper_model c sz).1.1 =
      some (st_load_whisper_model c sz).1.2 := by
  cases hl : c.entries.lookup sz with
  | some v => simp [st_load_whisper_model, hl]
  | none => simp [st_load_whisper_model, hl, List.lookup]

/-- Every instance handed out during a run is the final cache's entry for its
tier. -/
theorem stRunLoads_mem_lookup (reqs : List String) :
    ∀ c : StCache, ∀ inst ∈ (stRunLoads reqs c).1,
      (stRunLoads reqs c).2.entries.lookup inst.1 = some inst.2 := by
  induction reqs with
  | nil => intro c inst h; simp [stRunLoads] at h
  | cons sz rest ih =>
    intro c inst h
    simp only [stRunLoads] at h
    rcases List.mem_cons.mp h with h1 | h1
    · subst h1
      exact stRunLoads_preserves_lookup rest _ _ _ (st_load_result_lookup c sz)
    · exact ih _ inst h1

/-- Instances in a run pair positionally with the requested tiers. -/
theorem stRunLoads_tiers (reqs : List String) :
    ∀ c : StCache,
      List.Forall₂ (fun req (inst : String × Nat) => inst.1 = req)
        reqs (stRunLoads reqs c).1 := by
  induction reqs with
  | nil => intro c; exact List.Forall₂.nil
  | cons sz rest ih =>
    intro c
    exact List.Forall₂.cons (st_load_fst c sz) (ih _)

/-- A tier with no cache entry is absent from the cache's key list. -/
theorem lookup_none_not_mem (l : List (String × Nat)) (a : String)
    (h : l.lookup a = none) : a ∉ l.map Prod.fst := by
  induction l with
  | nil => simp
  | cons p rest ih =>
    obtain ⟨k, v⟩ := p
    by_cases he : a = k
    · subst he
      simp [List.lookup] at h
    · simp only [List.lookup, beq_eq_false_iff_ne.mpr he, if_neg] at h
      simp only [List.map_cons, List.mem_cons, not_or]
      exact ⟨he, ih (by simpa using h)⟩

/-- A Streamlit load keeps the cache's keys duplicate-free. -/
theorem st_load_keys_nodup (c : StCache) (sz : String)
    (h : (c.entries.map Prod.fst).Nodup) :
    ((st_load_whisper_model c sz).2.entries.map Prod.fst).Nodup := by
  cases hl : c.entries.lookup sz with
  | some v => simpa [st_load_whisper_model, hl] using h
  | none =>
    have hnm := lookup_none_not_mem c.entries sz hl
    simp [st_load_whisper_model, hl, List.nodup_cons, hnm, h]

/-- A run of Streamlit loads keeps the cache's keys duplicate-free. -/
theorem stRunLoads_keys_nodup (reqs : List String) :
    ∀ c : StCache, (c.entries.map Prod.fst).Nodup →
      ((stRunLoads reqs c).2.entries.map Prod.fst).Nodup := by
  induction reqs with
  | nil => intro c h; exact h
  | cons sz rest ih => intro c h; exact ih _ (st_load_keys_nodup c sz h)

/-- C7 amended: memoization is per front-end. In the Streamlit front-end
(whose `st.cache_resource` decorator caches per `model_size`, the
underscore-prefixed `_self` being excluded from the key) the original claim
holds: within one process, each call requesting tier `T` returns a model
instance of tier `T`, two calls requesting the same tier return the same
memoized instance, and the cache holds at most one entry per tier (lazy,
at-most-once construction per tier). In the FastAPI and Gradio front-ends
(`src/main.py`, `src/app.py`) the memo is a single slot that ignores the
requested tier: the first call constructs the first requested tier's model and
every later call returns that same instance even when it requests a different
tier. -/
theorem model_memo_per_frontend :
    (∀ reqs : List String,
      List.Forall₂ (fun req (inst : String × Nat) => inst.1 = req)
        reqs (stRunLoads reqs stInit).1 ∧
      (∀ i1 ∈ (stRunLoads reqs stInit).1, ∀ i2 ∈ (stRunLoads reqs stInit).1,
        i1.1 = i2.1 → i1 = i2) ∧
      ((stRunLoads reqs stInit).2.entries.map Prod.fst).Nodup) ∧
    (∀ (sz : String) (rest : List String),
      runLoads (sz :: rest) none = (sz :: rest.map (fun _ => sz), some sz)) := by
  constructor
  · intro reqs
    refine ⟨stRunLoads_tiers reqs stInit, ?_,
      stRunLoads_keys_nodup reqs stInit (by simp [stInit])⟩
    intro i1 h1 i2 h2 hfst
    have l1 := stRunLoads_mem_lookup reqs stInit i1 h1
    have l2 := stRunLoads_mem_lookup reqs stInit i2 h2
    rw [hfst, l2] at l1
    obtain ⟨a1, b1⟩ := i1
    obtain ⟨a2, b2⟩ := i2
    simp only at hfst
    simp only [Option.some_inj] at l1
    rw [hfst, l1]
  · intro sz rest
    have aux : ∀ (l : List String) (m : String),
        runLoads l (some m) = (l.map (fun _ => m), some m) := by
      intro l m
      induction l with
      | nil => rfl
      | cons a l ih => simp [runLoads, load_whisper_model, ih]
    simp [runLoads, load_whisper_model, aux]

/-! ### Data model and SRT renderer (src/main.py lines 120-134, 173-187) -/

/-- One recognizer utterance span (`{'start': ..., 'end': ..., 'text': ...}`);
`stop` models the Python key `end` (a reserved word in Lean). -/
structure TranscriptSegment where
  start : ℚ
  stop : ℚ
  text : String
deriving DecidableEq

/-- One rendered cue block of an SRT document. -/
structure SubtitleCue where
  index : Nat
  startTime : String
  endTime : String
  textBlock : String
deriving DecidableEq

/-- The string appended for one cue in `generate_srt_content`: the index line,
the timing line, and the text block followed by the blank-line separator. -/
def cueStr (c : SubtitleCue) : String :=
  toString c.index ++ "\n" ++ c.startTime ++ " --> " ++ c.endTime ++ "\n" ++
    c.textBlock ++ "\n\n"

/-- The cue blocks of the mono-lingual renderer:
`enumerate(zip(segments_data, translated_segments), i)` with the translated
text passed through the wrapper. -/
def monoCuesFrom (i : Nat) : List (TranscriptSegment × String) → List SubtitleCue
  | [] => []
  | (s, t) :: rest =>
    ⟨i, format_timestamp s.start, format_timestamp s.stop, clean_text_for_subtitle t⟩ ::
      monoCuesFrom (i + 1) rest

/-- `generate_srt_content` from `src/main.py` lines 120-134: the concatenation,
in order, of the cue blocks of the zipped sequences enumerated from 1. -/
def generate_srt_content (segs : List TranscriptSegment) (ts : List String) : String :=
  String.join ((monoCuesFrom 1 (segs.zip ts)).map cueStr)

/-- The cue blocks of the bilingual branch (`src/main.py` lines 176-185):
wrapped source text stacked above wrapped translated text within one cue,
sharing the cue's index and timing. -/
def biCuesFrom (i : Nat) : List (TranscriptSegment × String) → List SubtitleCue
  | [] => []
  | (s, t) :: rest =>
    ⟨i, format_timestamp s.start, format_timestamp s.stop,
        clean_text_for_subtitle s.text ++ "\n" ++ clean_text_for_subtitle t⟩ ::
      biCuesFrom (i + 1) rest

/-- The bilingual SRT document of `process_audio_to_srt` (lines 174-187). -/
def bilingual_srt_content (segs : List TranscriptSegment) (ts : List String) : String :=
  String.join ((biCuesFrom 1 (segs.zip ts)).map cueStr)

/-! ### Pipeline orchestrator (src/main.py lines 136-189) -/

/-- The artifact bundle built by `process_audio_to_srt` (lines 165-187). -/
structure PipelineResult where
  original_texts : List String
  detected_language : String
  translated_segments : List String
  srt_content : String
  segments_count : Nat
  bilingual_srt : Option String
deriving DecidableEq

/-- The per-segment translation loop of `process_audio_to_srt` (lines 152-160):
`tr text` is the collaborator call returning `(translated_text,
translate_error)`; a non-empty error raises `翻譯錯誤: ...` and aborts the run,
otherwise the translation is appended in order. -/
def translateAll (tr : String → String × String) :
    List TranscriptSegment → Except String (List String)
  | [] => Except.ok []
  | s :: rest =>
    if (tr s.text).2 ≠ "" then Except.error ("翻譯錯誤: " ++ (tr s.text).2)
    else
      match translateAll tr rest with
      | Except.error e => Except.error e
      | Except.ok ts => Except.ok ((tr s.text).1 :: ts)

/-- Steps 2-3 of `process_audio_to_srt` from `src/main.py` lines 136-189,
starting from the transcription output (`segments_data`, `detected_language`)
and parameterized by the per-segment translation collaborator `tr`; a raised
exception is modelled by `Except.error`. -/
def process_audio_to_srt (tr : String → String × String) (detected : String)
    (segs : List TranscriptSegment) (include_original : Bool) :
    Except String PipelineResult :=
  if segs.isEmpty then Except.error "無法從音頻中提取文字"
  else
    match translateAll tr segs with
    | Except.error e => Except.error e
    | Except.ok ts =>
      Except.ok
        { original_texts := segs.map (fun s => s.text)
          detected_language := detected
          translated_segments := ts
          srt_content := generate_srt_content segs ts
          segments_count := segs.length
          bilingual_srt :=
            if include_original then some (bilingual_srt_content segs ts) else none }

/-! ### Pipeline lemmas -/

/-- When every segment translates without error, the loop returns the in-order
translations. -/
theorem translateAll_ok (tr : String → String × String) (segs : List TranscriptSegment)
    (hok : ∀ s ∈ segs, (tr s.text).2 = "") :
    translateAll tr segs = Except.ok (segs.map (fun s => (tr s.text).1)) := by
  induction segs with
  | nil => rfl
  | cons s rest ih =>
    have hs := hok s (List.mem_cons_self s rest)
    rw [translateAll, if_neg (by simp [hs]),
      ih (fun q hq => hok q (List.mem_cons_of_mem s hq))]
    simp

/-- Each segment pairs with the translation of its own text, positionally. -/
theorem forall₂_self_map {α β : Type} (f : α → β) (l : List α) :
    List.Forall₂ (fun a b => b = f a) l (l.map f) := by
  induction l with
  | nil => exact List.Forall₂.nil
  | cons a l ih => exact List.Forall₂.cons rfl ih

/-- The mono-lingual cue list has one cue per zipped pair. -/
theorem monoCuesFrom_length (l : List (TranscriptSegment × String)) :
    ∀ i, (monoCuesFrom i l).length = l.length := by
  induction l with
  | nil => intro i; rfl
  | cons p rest ih =>
    intro i
    obtain ⟨s, t⟩ := p
    rw [monoCuesFrom]
    simp [ih (i + 1)]

/-- The bilingual cue list has one cue per zipped pair. -/
theorem biCuesFrom_length (l : List (TranscriptSegment × String)) :
    ∀ i, (biCuesFrom i l).length = l.length := by
  induction l with
  | nil => intro i; rfl
  | cons p rest ih =>
    intro i
    obtain ⟨s, t⟩ := p
    rw [biCuesFrom]
    simp [ih (i + 1)]

/-- The mono-lingual cue indices are consecutive starting from `i`. -/
theorem monoCuesFrom_indices (l : List (TranscriptSegment × String)) :
    ∀ i, (monoCuesFrom i l).map (fun c => c.index) = List.range' i l.length := by
  induction l with
  | nil => intro i; rfl
  | cons p rest ih =>
    intro i
    obtain ⟨s, t⟩ := p
    rw [monoCuesFrom, List.length_cons, List.range'_succ]
    simp [ih (i + 1)]

/-- C4: when every segment translates successfully, the pipeline run succeeds;
the translated sequence has the same length as the segment sequence and pairs
positionally with it (translation never reorders, merges or drops segments),
and the rendered document is the concatenation of exactly `N` cue blocks whose
indices are exactly `1..N`, consecutive, in segment order. -/
theorem pipeline_preserves_order (tr : String → String × String) (lang : String)
    (segs : List TranscriptSegment) (hne : segs ≠ [])
    (hok : ∀ s ∈ segs, (tr s.text).2 = "") :
    ∃ r, process_audio_to_srt tr lang segs false = Except.ok r ∧
      r.translated_segments.length = segs.length ∧
      List.Forall₂ (fun s t => t = (tr s.text).1) segs r.translated_segments ∧
      (monoCuesFrom 1 (segs.zip r.translated_segments)).length = segs.length ∧
      (monoCuesFrom 1 (segs.zip r.translated_segments)).map (fun c => c.index) =
        List.range' 1 segs.length ∧
      r.srt_content =
        String.join ((monoCuesFrom 1 (segs.zip r.translated_segments)).map cueStr) := by
  have hTr := translateAll_ok tr segs hok
  have hproc : process_audio_to_srt tr lang segs false =
      Except.ok
        { original_texts := segs.map (fun s => s.text)
          detected_language := lang
          translated_segments := segs.map (fun s => (tr s.text).1)
          srt_content := generate_srt_content segs (segs.map (fun s => (tr s.text).1))
          segments_count := segs.length
          bilingual_srt := none } := by
    rw [process_audio_to_srt, if_neg (by simpa using hne), hTr]
    rfl
  refine ⟨_, hproc, ?_, ?_, ?_, ?_, rfl⟩
  · simp
  · exact forall₂_self_map _ segs
  · rw [monoCuesFrom_length, List.length_zip, List.length_map, min_self]
  · rw [monoCuesFrom_indices, List.length_zip, List.length_map, min_self]

/-- A translation collaborator that always succeeds (used as a witness input). -/
def trOk : String → String × String := fun _ => ("譯", "")

/-- A concrete two-segment input used by the order-preservation witness. -/
def segsW : List TranscriptSegment := [⟨0, 1, "Hello"⟩, ⟨1, 2, "world"⟩]

/-- C4 witness: the order-preservation theorem applied to a concrete two-segment
run with an always-succeeding collaborator. -/
theorem pipeline_preserves_order_witness :
    ∃ r, process_audio_to_srt trOk "en" segsW false = Except.ok r ∧
      r.translated_segments.length = segsW.length ∧
      List.Forall₂ (fun s t => t = (trOk s.text).1) segsW r.translated_segments ∧
      (monoCuesFrom 1 (segsW.zip r.translated_segments)).length = segsW.length ∧
      (monoCuesFrom 1 (segsW.zip r.translated_segments)).map (fun c => c.index) =
        List.range' 1 segsW.length ∧
      r.srt_content =
        String.join ((monoCuesFrom 1 (segsW.zip r.translated_segments)).map cueStr) :=
  pipeline_preserves_order trOk "en" segsW (by simp [segsW]) (by decide)

/-! ### Fail-fast translation errors (C1) -/

/-- C1 amended: the first failing segment aborts the whole run before rendering:
no result (hence no SRT document and no partial output) is produced, and the
raised error carries the underlying collaborator cause prefixed with
`翻譯錯誤: ` — the failing segment's source text is not part of the message. -/
theorem translation_failure_aborts (tr : String → String × String) (lang : String)
    (b : Bool) (pre post : List TranscriptSegment) (s : TranscriptSegment)
    (hpre : ∀ p ∈ pre, (tr p.text).2 = "") (hfail : (tr s.text).2 ≠ "") :
    process_audio_to_srt tr lang (pre ++ s :: post) b =
      Except.error ("翻譯錯誤: " ++ (tr s.text).2) := by
  have hTrans : ∀ pre2 : List TranscriptSegment, (∀ p ∈ pre2, (tr p.text).2 = "") →
      translateAll tr (pre2 ++ s :: post) = Except.error ("翻譯錯誤: " ++ (tr s.text).2) := by
    intro pre2 hpre2
    induction pre2 with
    | nil => rw [List.nil_append, translateAll, if_pos hfail]
    | cons p pre2 ih =>
      have hp := hpre2 p (List.mem_cons_self p pre2)
      rw [List.cons_append, translateAll, if_neg (by simp [hp]),
        ih (fun q hq => hpre2 q (List.mem_cons_of_mem p hq))]
  rw [process_audio_to_srt, if_neg (by simp), hTrans pre hpre]

/-- A translation collaborator that fails on `"world"` with cause `"quota"`
and succeeds elsewhere (used by the fail-fast counterexample and witness). -/
def trFail : String → String × String :=
  fun t => if t = "world" then ("", "quota") else ("譯", "")

/-- Prefix test: does `n` occur at the start of the second list? -/
def subAt : List Char → List Char → Bool
  | [], _ => true
  | _ :: _, [] => false
  | a :: as, b :: bs => a == b && subAt as bs

/-- Substring occurrence test on character lists. -/
def hasSub (n : List Char) : List Char → Bool
  | [] => n.isEmpty
  | x :: rest => subAt n (x :: rest) || hasSub n rest

/-- C1 counterexample: with the collaborator failing on segment 2 of 2 with
cause `"quota"`, the run aborts with error `"翻譯錯誤: quota"` — which carries
the cause but does not contain the failing segment's source text `"world"`. -/
theorem translation_failure_counterexample :
    process_audio_to_srt trFail "en" [⟨0, 1, "hello"⟩, ⟨1, 2, "world"⟩] false =
      Except.error "翻譯錯誤: quota" ∧
    hasSub "world".data "翻譯錯誤: quota".data = false :=
  ⟨rfl, rfl⟩

/-- C1 witness: the abort theorem applied to a concrete run whose second
segment fails. -/
theorem translation_failure_aborts_witness :
    process_audio_to_srt trFail "en"
        ([⟨0, 1, "hello"⟩] ++ (⟨1, 2, "world"⟩ : TranscriptSegment) :: []) false =
      Except.error ("翻譯錯誤: " ++ (trFail "world").2) :=
  translation_failure_aborts trFail "en" false [⟨0, 1, "hello"⟩] []
    ⟨1, 2, "world"⟩ (by decide) (by decide)

/-! ### Bilingual versus mono-lingual rendering (C9) -/

/-- A needle occurs wherever it is appended after any prefix. -/
theorem subAt_self (n : List Char) : subAt n n = true := by
  induction n with
  | nil => rfl
  | cons a as ih => simp [subAt, ih]

/-- `hasSub` finds a needle placed at the end of any string. -/
theorem hasSub_append_self (n A : List Char) : hasSub n (A ++ n) = true := by
  induction A with
  | nil =>
    cases n with
    | nil => rfl
    | cons x xs => simp [hasSub, subAt_self]
  | cons a A ih => simp [hasSub, ih]

/-- Corresponding bilingual and mono-lingual cues share index and timing, and
the bilingual text block contains the mono-lingual text block as a substring. -/
theorem biCues_match_monoCues (l : List (TranscriptSegment × String)) :
    ∀ i, List.Forall₂
      (fun m b : SubtitleCue =>
        b.index = m.index ∧ b.startTime = m.startTime ∧ b.endTime = m.endTime ∧
          hasSub m.textBlock.data b.textBlock.data = true)
      (monoCuesFrom i l) (biCuesFrom i l) := by
  induction l with
  | nil => intro i; exact List.Forall₂.nil
  | cons p rest ih =>
    intro i
    obtain ⟨s, t⟩ := p
    rw [monoCuesFrom, biCuesFrom]
    refine List.Forall₂.cons ⟨rfl, rfl, rfl, ?_⟩ (ih (i + 1))
    have hdata : (clean_text_for_subtitle s.text ++ "\n" ++ clean_text_for_subtitle t).data =
        (clean_text_for_subtitle s.text ++ "\n").data ++ (clean_text_for_subtitle t).data := by
      simp
    rw [hdata]
    exact hasSub_append_self _ _

/-- C9: for equal-length inputs, the bilingual document has exactly as many cue
blocks as the mono-lingual document (one per segment); corresponding cues share
the same index and the same start/end times, and each bilingual cue's text
block contains the corresponding mono-lingual cue's text block as a substring
(wrapped source stacked above wrapped translation); both documents are the
in-order concatenation of their cue blocks. -/
theorem bilingual_superset (segs : List TranscriptSegment) (ts : List String)
    (h : segs.length = ts.length) :
    (biCuesFrom 1 (segs.zip ts)).length = (monoCuesFrom 1 (segs.zip ts)).length ∧
    (biCuesFrom 1 (segs.zip ts)).length = segs.length ∧
    List.Forall₂
      (fun m b : SubtitleCue =>
        b.index = m.index ∧ b.startTime = m.startTime ∧ b.endTime = m.endTime ∧
          hasSub m.textBlock.data b.textBlock.data = true)
      (monoCuesFrom 1 (segs.zip ts)) (biCuesFrom 1 (segs.zip ts)) ∧
    bilingual_srt_content segs ts =
      String.join ((biCuesFrom 1 (segs.zip ts)).map cueStr) ∧
    generate_srt_content segs ts =
      String.join ((monoCuesFrom 1 (segs.zip ts)).map cueStr) := by
  refine ⟨?_, ?_, biCues_match_monoCues (segs.zip ts) 1, rfl, rfl⟩
  · rw [biCuesFrom_length, monoCuesFrom_length]
  · rw [biCuesFrom_length, List.length_zip, h, min_self]

/-- C9 witness: the bilingual-mono correspondence applied to a concrete
one-segment input with its translation. -/
theorem bilingual_superset_witness :
    (biCuesFrom 1 ([(⟨0, 1.5, "Hello"⟩ : TranscriptSegment)].zip ["你好"])).length =
      (monoCuesFrom 1 ([(⟨0, 1.5, "Hello"⟩ : TranscriptSegment)].zip ["你好"])).length ∧
    (biCuesFrom 1 ([(⟨0, 1.5, "Hello"⟩ : TranscriptSegment)].zip ["你好"])).length =
      [(⟨0, 1.5, "Hello"⟩ : TranscriptSegment)].length ∧
    List.Forall₂
      (fun m b : SubtitleCue =>
        b.index = m.index ∧ b.startTime = m.startTime ∧ b.endTime = m.endTime ∧
          hasSub m.textBlock.data b.textBlock.data = true)
      (monoCuesFrom 1 ([(⟨0, 1.5, "Hello"⟩ : TranscriptSegment)].zip ["你好"]))
      (biCuesFrom 1 ([(⟨0, 1.5, "Hello"⟩ : TranscriptSegment)].zip ["你好"])) ∧
    bilingual_srt_content [⟨0, 1.5, "Hello"⟩] ["你好"] =
      String.join ((biCuesFrom 1 ([(⟨0, 1.5, "Hello"⟩ : TranscriptSegment)].zip ["你好"])).map cueStr) ∧
    generate_srt_content [⟨0, 1.5, "Hello"⟩] ["你好"] =
      String.join ((monoCuesFrom 1 ([(⟨0, 1.5, "Hello"⟩ : TranscriptSegment)].zip ["你好"])).map cueStr) :=
  bilingual_superset [⟨0, 1.5, "Hello"⟩] ["你好"] rfl

/-! ### Renderer precondition behavior on unequal lengths (C10) -/

/-- C10 counterexample: invoked on sequences of lengths 1 and 2, the renderer
raises no precondition error; it silently produces the same well-formed
one-cue document as the truncated equal-length call. -/
theorem renderer_mismatch_counterexample :
    generate_srt_content [⟨0, 1, "a"⟩] ["x", "y"] =
      generate_srt_content [⟨0, 1, "a"⟩] ["x"] ∧
    (monoCuesFrom 1 ([(⟨0, 1, "a"⟩ : TranscriptSegment)].zip ["x", "y"])).length = 1 :=
  ⟨rfl, rfl⟩

/-- C10 amended: on input sequences of any lengths the renderer never fails; the
zip silently truncates to the shorter sequence, so the document is the in-order
concatenation of `min` -many cue blocks. -/
theorem renderer_truncates (segs : List TranscriptSegment) (ts : List String) :
    (monoCuesFrom 1 (segs.zip ts)).length = min segs.length ts.length ∧
    generate_srt_content segs ts =
      String.join ((monoCuesFrom 1 (segs.zip ts)).map cueStr) :=
  ⟨by rw [monoCuesFrom_length, List.length_zip], rfl⟩

/-! ### Segment filtering (C5) -/

/-- Python `text.strip()` on strings. -/
def stripStr (t : String) : String := String.mk (pyStrip t.data)

/-- The segment filter of `transcribe_with_timestamps` in
`src/streamlit_app.py` lines 83-91: keep a segment when its stripped text is
non-empty and its duration exceeds 0.1 s, storing the stripped text. -/
def streamlit_filter_segments (raw : List TranscriptSegment) : List TranscriptSegment :=
  raw.filterMap fun r =>
    if stripStr r.text ≠ "" ∧ 1 / 10 < r.stop - r.start then
      some ⟨r.start, r.stop, stripStr r.text⟩
    else none

/-- The segment extraction of `transcribe_with_timestamps` in `src/main.py`
lines 82-93: every recognizer segment is kept (text stripped), with no duration
or emptiness filtering. -/
def main_transcribe_segments (raw : List TranscriptSegment) : List TranscriptSegment :=
  raw.map fun r => ⟨r.start, r.stop, stripStr r.text⟩

/-- C5 counterexample: in `src/main.py` a recognized segment of duration
0.05 s (= 1/20 < 1/10) is not excluded: the transcription stage keeps both raw
segments, so the segment count visible to the caller is the raw count 2, not
the filtered size. -/
theorem main_no_filter_counterexample :
    (1 / 20 : ℚ) - 0 < 1 / 10 ∧
    main_transcribe_segments [⟨0, 1 / 20, "uh"⟩, ⟨1, 2, "hello"⟩] =
      [⟨0, 1 / 20, "uh"⟩, ⟨1, 2, "hello"⟩] ∧
    (main_transcribe_segments [⟨0, 1 / 20, "uh"⟩, ⟨1, 2, "hello"⟩]).length = 2 :=
  ⟨by norm_num, rfl, rfl⟩

/-- `List.filter` on a cons whose head passes the predicate (explicit-argument
form, convenient for rewriting). -/
theorem filter_cons_pos' {α : Type} (p : α → Bool) (a : α) (l : List α) (h : p a = true) :
    (a :: l).filter p = a :: l.filter p :=
  List.filter_cons_of_pos h

/-- `List.filter` on a cons whose head fails the predicate (explicit-argument
form, convenient for rewriting). -/
theorem filter_cons_neg' {α : Type} (p : α → Bool) (a : α) (l : List α) (h : p a = false) :
    (a :: l).filter p = l.filter p :=
  List.filter_cons_of_neg (by simp [h])

/-- The kept-segment count equals the number of raw segments passing the
filter predicate. -/
theorem streamlit_filter_length (raw : List TranscriptSegment) :
    (streamlit_filter_segments raw).length =
      (raw.filter fun q => decide (stripStr q.text ≠ "" ∧ 1 / 10 < q.stop - q.start)).length := by
  rw [streamlit_filter_segments]
  induction raw with
  | nil => rfl
  | cons q raw ih =>
    by_cases hc : stripStr q.text ≠ "" ∧ 1 / 10 < q.stop - q.start
    · rw [List.filterMap_cons_some (by rw [if_pos hc]),
        filter_cons_pos' (fun v => decide (stripStr v.text ≠ "" ∧ 1 / 10 < v.stop - v.start))
          q raw (decide_eq_true hc),
        List.length_cons, List.length_cons, ih]
    · rw [List.filterMap_cons_none (by rw [if_neg hc]),
        filter_cons_neg' (fun v => decide (stripStr v.text ≠ "" ∧ 1 / 10 < v.stop - v.start))
          q raw (decide_eq_false hc),
        ih]

/-- C5 amended (Streamlit front-end): every segment kept by the filter has
duration strictly above 0.1 s and non-empty text; a raw segment whose duration
is at most the threshold, or whose text strips to empty, never corresponds to a
kept segment; and the kept-segment count — the count the Streamlit pipeline
reports — is the number of raw segments passing the filter, not the raw count. -/
theorem streamlit_filter_correct (raw : List TranscriptSegment) (r : TranscriptSegment)
    (hbad : r.stop - r.start ≤ 1 / 10 ∨ stripStr r.text = "") :
    (∀ s ∈ streamlit_filter_segments raw, 1 / 10 < s.stop - s.start ∧ s.text ≠ "") ∧
    (∀ s ∈ streamlit_filter_segments raw,
      ¬(s.start = r.start ∧ s.stop = r.stop ∧ s.text = stripStr r.text)) ∧
    (streamlit_filter_segments raw).length =
      (raw.filter fun q => decide (stripStr q.text ≠ "" ∧ 1 / 10 < q.stop - q.start)).length := by
  have hmem : ∀ s ∈ streamlit_filter_segments raw,
      ∃ q ∈ raw, (stripStr q.text ≠ "" ∧ 1 / 10 < q.stop - q.start) ∧
        s = ⟨q.start, q.stop, stripStr q.text⟩ := by
    intro s hs
    rw [streamlit_filter_segments, List.mem_filterMap] at hs
    obtain ⟨q, hq, hfq⟩ := hs
    by_cases hc : stripStr q.text ≠ "" ∧ 1 / 10 < q.stop - q.start
    · rw [if_pos hc] at hfq
      exact ⟨q, hq, hc, (Option.some_inj.mp hfq).symm⟩
    · rw [if_neg hc] at hfq
      exact absurd hfq (by simp)
  have hkeep : ∀ s ∈ streamlit_filter_segments raw,
      1 / 10 < s.stop - s.start ∧ s.text ≠ "" := by
    intro s hs
    obtain ⟨q, _, ⟨hq1, hq2⟩, hsq⟩ := hmem s hs
    subst hsq
    exact ⟨hq2, hq1⟩
  refine ⟨hkeep, ?_, ?_⟩
  · intro s hs ⟨h1, h2, h3⟩
    obtain ⟨hdur, htext⟩ := hkeep s hs
    rcases hbad with hb | hb
    · rw [h1, h2] at hdur
      exact absurd hdur (not_lt.mpr (le_trans hb (by norm_num)))
    · rw [h3, hb] at htext
      exact htext rfl
  · exact streamlit_filter_length raw

/-- C5 amended witness: the filter theorem applied to a concrete raw list and a
whitespace-only segment. -/
theorem streamlit_filter_correct_witness :
    (∀ s ∈ streamlit_filter_segments [(⟨0, 2, " "⟩ : TranscriptSegment)],
      1 / 10 < s.stop - s.start ∧ s.text ≠ "") ∧
    (∀ s ∈ streamlit_filter_segments [(⟨0, 2, " "⟩ : TranscriptSegment)],
      ¬(s.start = (⟨0, 2, " "⟩ : TranscriptSegment).start ∧
        s.stop = (⟨0, 2, " "⟩ : TranscriptSegment).stop ∧
        s.text = stripStr (⟨0, 2, " "⟩ : TranscriptSegment).text)) ∧
    (streamlit_filter_segments [(⟨0, 2, " "⟩ : TranscriptSegment)]).length =
      ([(⟨0, 2, " "⟩ : TranscriptSegment)].filter fun q =>
        decide (stripStr q.text ≠ "" ∧ 1 / 10 < q.stop - q.start)).length :=
  streamlit_filter_correct [⟨0, 2, " "⟩] ⟨0, 2, " "⟩ (Or.inr rfl)
